import Mathlib

/-
Verification of the NationalParkPlanner itinerary core (src/app.py).

The Python functions are shallowly embedded as executable Lean definitions
over List Char / String.  Python str methods are modelled on their ASCII
behaviour (the narrative and activity texts the program handles are ASCII);
machine integers do not occur (Python ints are unbounded, modelled as Nat).
-/

-- ── Python character classes (ASCII fragment of str.strip / \s / \w / \d) ──

def pyIsSpace (c : Char) : Bool :=
  c = ' ' || c = '\t' || c = '\n' || c = '\r' || c = '\x0b' || c = '\x0c'

-- ASCII fragment of the regex class \w used by the \b word boundary.
def isWordChar (c : Char) : Bool :=
  c.isAlphanum || c = '_'

-- Python str.strip with no argument: remove whitespace from both ends.
def pyStrip (l : List Char) : List Char :=
  ((l.dropWhile pyIsSpace).reverse.dropWhile pyIsSpace).reverse

-- Python str.lower on ASCII letters.
def pyLower (l : List Char) : List Char :=
  l.map Char.toLower

-- Python s.split("\n"): keeps empty pieces, like String.splitOn.
def splitOnNl : List Char → List (List Char)
  | [] => [[]]
  | c :: t =>
    if c = '\n' then [] :: splitOnNl t
    else
      match splitOnNl t with
      | h :: r => (c :: h) :: r
      | [] => [[c]]

-- Python str.split() with no argument: words separated by whitespace runs.
def pyWordsAux : List Char → List Char → List (List Char)
  | cur, [] => if cur = [] then [] else [cur.reverse]
  | cur, c :: t =>
    if pyIsSpace c then
      if cur = [] then pyWordsAux [] t else cur.reverse :: pyWordsAux [] t
    else pyWordsAux (c :: cur) t

def pyWords (l : List Char) : List (List Char) :=
  pyWordsAux [] l

-- Python substring test `sub in hay` on strings.
def strContains : List Char → List Char → Bool
  | hay, sub =>
    if sub.isPrefixOf hay then true
    else
      match hay with
      | [] => false
      | _ :: t => strContains t sub

-- Python int() on a nonempty decimal digit string.
def decValue (l : List Char) : Nat :=
  l.foldl (fun a c => 10 * a + (c.toNat - '0'.toNat)) 0

-- ── Python dict semantics over association lists ──

-- Python d[k] = v: overwrite in place on an existing key, else append;
-- iteration order is first-insertion order.
def dictInsert {κ α : Type} [DecidableEq κ] (m : List (κ × α)) (k : κ) (v : α) :
    List (κ × α) :=
  if m.any (fun p => p.1 = k) then
    m.map (fun p => if p.1 = k then (k, v) else p)
  else m ++ [(k, v)]

-- ── re.search(r'\bday\s*(\d+)\b', line, re.IGNORECASE) ──

-- Attempt of the pattern at the head of cs, given whether a word boundary
-- holds before cs.  The pattern is: "day" (any case), then \s*, then a
-- maximal nonempty digit run, then a word boundary.
def tryDayMarker (boundaryOk : Bool) (cs : List Char) : Option Nat :=
  match cs with
  | c1 :: c2 :: c3 :: rest =>
    if boundaryOk && (c1.toLower = 'd' && (c2.toLower = 'a' && c3.toLower = 'y')) then
      let afterWs := rest.dropWhile pyIsSpace
      match afterWs.takeWhile Char.isDigit with
      | [] => none
      | d :: ds =>
        match afterWs.dropWhile Char.isDigit with
        | [] => some (decValue (d :: ds))
        | c :: _ => if isWordChar c then none else some (decValue (d :: ds))
    else none
  | _ => none

-- Leftmost match, as re.search: scan start positions left to right.
def findDayMarkerAux : Bool → List Char → Option Nat
  | _, [] => none
  | bOk, c :: t =>
    match tryDayMarker bOk (c :: t) with
    | some n => some n
    | none => findDayMarkerAux (!isWordChar c) t

def findDayMarker (l : List Char) : Option Nat :=
  findDayMarkerAux true l

-- ── NarrativeDayMapper: parse_activity_day_defaults (app.py:136-150) ──

-- Loop body of parse_activity_day_defaults for one line.
def parseStep (num_days : Nat) (st : Nat × List (String × Nat)) (line : List Char) :
    Nat × List (String × Nat) :=
  let stripped := pyStrip line
  match findDayMarker stripped with
  | some detected =>
    (if 1 ≤ detected ∧ detected ≤ num_days then detected else st.1, st.2)
  | none =>
    if stripped ≠ [] then (st.1, dictInsert st.2 (String.mk (pyLower stripped)) st.1)
    else st

def parse_activity_day_defaults (master_itinerary : String) (num_days : Nat) :
    List (String × Nat) :=
  if master_itinerary = "" then []
  else ((splitOnNl master_itinerary.data).foldl (parseStep num_days) (1, [])).2

-- ── DayAssignmentResolver: guess_day_for_activity (app.py:152-166) ──

-- len(set(a) & set(b)) for Python word lists.
def wordOverlap (aw bw : List (List Char)) : Nat :=
  ((aw.dedup).filter (fun w => bw.contains w)).length

-- Word overlap of the activity name words with one day-map entry.
def ovEntry (nameWords : List (List Char)) (p : String × Nat) : Nat :=
  wordOverlap nameWords (pyWords p.1.data)

-- Loop body of the second (word overlap) pass: state (best_overlap, best_day).
def overlapStep (nameWords : List (List Char)) (b : Nat × Nat) (p : String × Nat) :
    Nat × Nat :=
  if b.1 < ovEntry nameWords p ∧ 2 ≤ ovEntry nameWords p then (ovEntry nameWords p, p.2)
  else b

-- Predicate of the first (substring containment) pass.
def containsMatch (nameLower : List Char) (p : String × Nat) : Bool :=
  strContains p.1.data nameLower || strContains nameLower p.1.data

def guess_day_for_activity (activity_name : String) (day_map : List (String × Nat))
    (default_day : Nat) : Nat :=
  let nameLower := pyLower activity_name.data
  match day_map.find? (containsMatch nameLower) with
  | some p => p.2
  | none =>
    (day_map.foldl (overlapStep (pyWords nameLower)) (0, default_day)).2

-- ── ConflictAnalyzer: classify_activity (app.py:173-187) ──

def STRENUOUS_KEYWORDS : List String :=
  ["hike", "hiking", "climb", "climbing", "backpack", "backpacking",
   "trail", "summit", "scramble", "trek", "trekking", "rafting", "kayak"]

def NIGHT_KEYWORDS : List String :=
  ["stargazing", "night", "sunset", "campfire", "evening", "dusk", "bonfire"]

def EARLY_KEYWORDS : List String :=
  ["sunrise", "dawn", "morning", "early", "ranger walk"]

def WATER_KEYWORDS : List String :=
  ["swim", "swimming", "snorkel", "diving", "kayak", "rafting", "canoe"]

def classify_activity (name atype : String) : List String :=
  let text_lower := pyLower (name.data ++ ' ' :: atype.data)
  (if STRENUOUS_KEYWORDS.any (fun k => strContains text_lower k.data) then ["strenuous"] else [])
  ++ (if NIGHT_KEYWORDS.any (fun k => strContains text_lower k.data) then ["night"] else [])
  ++ (if EARLY_KEYWORDS.any (fun k => strContains text_lower k.data) then ["early"] else [])
  ++ (if WATER_KEYWORDS.any (fun k => strContains text_lower k.data) then ["water"] else [])

-- ── ScheduledActivity: the {"id","name","type"} dicts held by the board ──

structure ScheduledActivity where
  id : String
  name : String
  type : String
deriving DecidableEq, Repr

-- ── ConflictAnalyzer: compute_conflict_warnings (app.py:191-210) ──

def strenuousOf (acts : List ScheduledActivity) : List ScheduledActivity :=
  acts.filter (fun a => (classify_activity a.name a.type).contains "strenuous")

def nightOf (acts : List ScheduledActivity) : List ScheduledActivity :=
  acts.filter (fun a => (classify_activity a.name a.type).contains "night")

def earlyOf (acts : List ScheduledActivity) : List ScheduledActivity :=
  acts.filter (fun a => (classify_activity a.name a.type).contains "early")

-- U+1F975 hot face and U+1F634 sleeping face, the first characters of the
-- heavy-day and sleep-conflict messages (astral characters, built by codepoint).
def hotFace : Char := Char.ofNat 129397
def sleepFace : Char := Char.ofNat 128564

def heavyMsg (strenuous : List ScheduledActivity) : String :=
  String.mk [hotFace] ++ " **Heavy day!** 3+ strenuous activities: "
  ++ String.intercalate ", " (strenuous.map (fun a => a.name))

def btbMsg (strenuous : List ScheduledActivity) : String :=
  "⚠️ **Back-to-back effort:** "
  ++ String.intercalate " & " (strenuous.map (fun a => a.name))
  ++ " — consider spacing these out"

def sleepMsg (early night : String) : String :=
  String.mk [sleepFace] ++ " **Sleep conflict:** \x27" ++ early
  ++ "\x27 (early start) and \x27" ++ night ++ "\x27 (late night) on the same day"

-- Warnings the loop body of compute_conflict_warnings builds for one day.
def day_warnings (acts : List ScheduledActivity) : List String :=
  (if 3 ≤ (strenuousOf acts).length then [heavyMsg (strenuousOf acts)]
   else if (strenuousOf acts).length = 2 then [btbMsg (strenuousOf acts)]
   else [])
  ++ (match (nightOf acts), (earlyOf acts) with
      | n :: _, e :: _ => [sleepMsg e.name n.name]
      | _, _ => [])

def compute_conflict_warnings (day_activities : List (Nat × List ScheduledActivity)) :
    List (Nat × List String) :=
  day_activities.foldl
    (fun acc p =>
      if day_warnings p.2 ≠ [] then dictInsert acc p.1 (day_warnings p.2) else acc)
    []

-- Observation: the warning list the result map holds for one day (empty if absent).
def warningsFor (day_activities : List (Nat × List ScheduledActivity)) (d : Nat) :
    List String :=
  match (compute_conflict_warnings day_activities).find? (fun p => p.1 == d) with
  | some p => p.2
  | none => []

-- ── ItineraryBoard: the session day_activities dict and its mutations ──

-- Python day_activities.get(day_num, []).
def pyGet (b : List (Nat × List ScheduledActivity)) (d : Nat) : List ScheduledActivity :=
  match b.find? (fun p => p.1 == d) with
  | some p => p.2
  | none => []

-- f"act_{i}_{target}" (app.py:1264, 1293).
def mkActId (i target : Nat) : String :=
  "act_" ++ (Nat.repr i) ++ "_" ++ (Nat.repr target)

-- if target not in day_activities: day_activities[target] = []  (app.py:1261-1262, 1290-1291)
def ensureDay (b : List (Nat × List ScheduledActivity)) (target : Nat) :
    List (Nat × List ScheduledActivity) :=
  if b.any (fun p => p.1 = target) then b else b ++ [(target, [])]

-- The add handlers (app.py:1261-1264 bulk, 1290-1293 individual): ensure the
-- target key exists, then append unless the exact name is already present.
def addActivity (b : List (Nat × List ScheduledActivity)) (target i : Nat)
    (name a_type : String) : List (Nat × List ScheduledActivity) :=
  if (pyGet (ensureDay b target) target).any (fun a => a.name = name) then
    ensureDay b target
  else (ensureDay b target).map (fun p =>
    if p.1 = target then (p.1, p.2 ++ [⟨mkActId i target, name, a_type⟩]) else p)

structure SuggestionAdd where
  idx : Nat
  name : String
  a_type : String
  target : Nat
deriving DecidableEq, Repr

-- The Apply All loop (app.py:1258-1265): one addActivity per suggestion, in order.
def applyAll (b : List (Nat × List ScheduledActivity)) (items : List SuggestionAdd) :
    List (Nat × List ScheduledActivity) :=
  items.foldl (fun acc it => addActivity acc it.target it.idx it.name it.a_type) b

-- Seeding on Generate Plan (app.py:1152): {i + 1: [] for i in range(nights + 1)}.
def day_activities_init (nights : Nat) : List (Nat × List ScheduledActivity) :=
  (List.range (nights + 1)).map (fun i => (i + 1, ([] : List ScheduledActivity)))

-- Default-day resolution for a suggestion (app.py:1252):
-- raw if raw in day_options else (day_options[0] if day_options else 1).
def resolveDefault (raw : Nat) (day_options : List Nat) : Nat :=
  if raw ∈ day_options then raw
  else match day_options with
  | d :: _ => d
  | [] => 1

-- ── DragDropSyncProtocol (render_dnd_itinerary, app.py:348-461) ──

-- Decimal digit characters of a Nat, as Python str(int); fuel-based so the
-- kernel can evaluate it.
def digitChar (d : Nat) : Char :=
  match d with
  | 0 => '0' | 1 => '1' | 2 => '2' | 3 => '3' | 4 => '4'
  | 5 => '5' | 6 => '6' | 7 => '7' | 8 => '8' | _ => '9'

def natToDigitsAux : Nat → Nat → List Char → List Char
  | 0, _, acc => acc
  | fuel + 1, n, acc =>
    if n < 10 then digitChar n :: acc
    else natToDigitsAux fuel (n / 10) (digitChar (n % 10) :: acc)

def natToDigits (n : Nat) : List Char :=
  natToDigitsAux (n + 1) n []

-- days_data (app.py:351-360): one ordered column per entry of days, each with
-- the ordered card list; only the payload-relevant fields are modelled.
def days_data (day_activities : List (Nat × List ScheduledActivity)) (days : List Nat) :
    List (Nat × List ScheduledActivity) :=
  days.map (fun d => (d, pyGet day_activities d))

-- saveState (app.py:449-457): serialize every column, in order, keyed by the
-- day number as a string, each card as {id, name, type}.
def saveState (rendered : List (Nat × List ScheduledActivity)) :
    List (String × List ScheduledActivity) :=
  rendered.map (fun p => (String.mk (natToDigits p.1), p.2))

/-- Modelled from the spec: the owning process receives the payload and
"discards its previous board and rebuilds one from the payload verbatim"
(spec section 4.4).  No code under src/ consumes the payload: the return value
of render_dnd_itinerary is discarded at both call sites (app.py:1309 and
app.py:1524), so this full replace exists only in the spec. -/
def rebuild_board_from_payload (payload : List (String × List ScheduledActivity)) :
    List (Nat × List ScheduledActivity) :=
  payload.map (fun p => (decValue p.1.data, p.2))

-- The ordered (day, name, type) triples of a board (spec section 8 round trip).
def tripleList (b : List (Nat × List ScheduledActivity)) :
    List (Nat × String × String) :=
  b.flatMap (fun p => p.2.map (fun a => (p.1, a.name, a.type)))

-- Largest word overlap any day-map entry attains with the activity name.
def maxOv (nw : List (List Char)) (m : List (String × Nat)) : Nat :=
  m.foldr (fun p acc => max (ovEntry nw p) acc) 0

def isKind (c : Char) (w : String) : Bool :=
  w.data.head? == some c

-- The entry one day column contributes to the result map.
def warnEntry (p : Nat × List ScheduledActivity) : Option (Nat × List String) :=
  if day_warnings p.2 = [] then none else some (p.1, day_warnings p.2)

-- Mathematical decimal digit list (recursion on n / 10, for proofs).
def natDigs (n : Nat) : List Char :=
  if _h : n < 10 then [digitChar n] else natDigs (n / 10) ++ [digitChar (n % 10)]
termination_by n
decreasing_by exact Nat.div_lt_self (by omega) (by omega)

-- quick concrete checks (spec section 8 example)
example :
    parse_activity_day_defaults "Day 1\nHike to Sunrise Point\nDay 2\nKayak the lake" 2 =
      [("hike to sunrise point", 1), ("kayak the lake", 2)] := by decide

example :
    guess_day_for_activity "Hike to Sunrise Point"
      [("hike to sunrise point", 1), ("kayak the lake", 2)] 1 = 1 := by decide

example : parse_activity_day_defaults "Day 5" 2 = [] := by decide

example : parse_activity_day_defaults "Day 7 rest day" 2 = [] := by decide

example : parse_activity_day_defaults "**Day 3** summit" 3 = [] := by decide

example : parse_activity_day_defaults "today 5 visit\nday2 camp" 9 = [("today 5 visit", 1)] := by decide

-- ── dict lemmas ──

theorem dictInsert_mem {κ α : Type} [DecidableEq κ] {m : List (κ × α)} {k : κ} {v : α}
    {p : κ × α} (h : p ∈ dictInsert m k v) : p ∈ m ∨ p = (k, v) := by
  unfold dictInsert at h
  split at h
  · rcases List.mem_map.mp h with ⟨q, hq, hfq⟩
    by_cases hk : q.1 = k
    · right; simp only [hk, if_pos] at hfq; exact hfq.symm
    · left; simp only [hk, if_neg, not_false_iff] at hfq; exact hfq ▸ hq
  · rcases List.mem_append.mp h with h1 | h1
    · exact Or.inl h1
    · right; simpa using h1

theorem dictInsert_keys {κ α : Type} [DecidableEq κ] (m : List (κ × α)) (k : κ) (v : α) :
    (dictInsert m k v).map Prod.fst = m.map Prod.fst
      ∨ (dictInsert m k v).map Prod.fst = m.map Prod.fst ++ [k] := by
  unfold dictInsert
  split
  · left
    rw [List.map_map]
    apply List.map_congr_left
    intro q _
    by_cases hk : q.1 = k <;> simp [hk]
  · right; simp

theorem dictInsert_fresh {κ α : Type} [DecidableEq κ] (m : List (κ × α)) (k : κ) (v : α)
    (h : (m.any fun p => p.1 = k) = false) : dictInsert m k v = m ++ [(k, v)] := by
  unfold dictInsert
  simp only [h]
  simp

-- ── parseStep characterization (the loop body of parse_activity_day_defaults) ──

theorem parseStep_marker_in_range (n cd : Nat) (m : List (String × Nat))
    (line : List Char) (d : Nat) (hm : findDayMarker (pyStrip line) = some d)
    (h1 : 1 ≤ d) (h2 : d ≤ n) : parseStep n (cd, m) line = (d, m) := by
  unfold parseStep
  simp [hm, h1, h2]

theorem parseStep_marker_excluded (n cd : Nat) (m : List (String × Nat))
    (line : List Char) (d : Nat) (hm : findDayMarker (pyStrip line) = some d) :
    (parseStep n (cd, m) line).2 = m := by
  unfold parseStep
  simp only [hm]

theorem parseStep_marker_out_of_range (n cd : Nat) (m : List (String × Nat))
    (line : List Char) (d : Nat) (hm : findDayMarker (pyStrip line) = some d)
    (h : ¬(1 ≤ d ∧ d ≤ n)) : parseStep n (cd, m) line = (cd, m) := by
  unfold parseStep
  simp [hm, h]

theorem parseStep_stores (n cd : Nat) (m : List (String × Nat)) (line : List Char)
    (hm : findDayMarker (pyStrip line) = none) (hne : pyStrip line ≠ []) :
    parseStep n (cd, m) line = (cd, dictInsert m (String.mk (pyLower (pyStrip line))) cd) := by
  unfold parseStep
  simp [hm, hne]

-- ── parse fold invariants ──

theorem parseStep_skips_empty (n cd : Nat) (m : List (String × Nat)) (line : List Char)
    (_hm : findDayMarker (pyStrip line) = none) (he : pyStrip line = []) :
    parseStep n (cd, m) line = (cd, m) := by
  unfold parseStep
  simp [he, findDayMarker, findDayMarkerAux]

theorem parseStep_preserves_range (n : Nat) (st : Nat × List (String × Nat))
    (line : List Char) (h1 : 1 ≤ st.1 ∧ st.1 ≤ n)
    (h2 : ∀ p ∈ st.2, 1 ≤ p.2 ∧ p.2 ≤ n) :
    (1 ≤ (parseStep n st line).1 ∧ (parseStep n st line).1 ≤ n)
      ∧ ∀ p ∈ (parseStep n st line).2, 1 ≤ p.2 ∧ p.2 ≤ n := by
  obtain ⟨cd, m⟩ := st
  rcases hm : findDayMarker (pyStrip line) with _ | d
  · by_cases he : pyStrip line = []
    · rw [parseStep_skips_empty n cd m line hm he]; exact ⟨h1, h2⟩
    · rw [parseStep_stores n cd m line hm he]
      refine ⟨h1, ?_⟩
      intro p hp
      rcases dictInsert_mem hp with hin | heq
      · exact h2 p hin
      · rw [heq]; exact h1
  · by_cases hd : 1 ≤ d ∧ d ≤ n
    · rw [parseStep_marker_in_range n cd m line d hm hd.1 hd.2]; exact ⟨hd, h2⟩
    · rw [parseStep_marker_out_of_range n cd m line d hm hd]; exact ⟨h1, h2⟩

theorem parse_foldl_range (n : Nat) (lines : List (List Char)) :
    ∀ st : Nat × List (String × Nat), (1 ≤ st.1 ∧ st.1 ≤ n) →
      (∀ p ∈ st.2, 1 ≤ p.2 ∧ p.2 ≤ n) →
      ∀ p ∈ (lines.foldl (parseStep n) st).2, 1 ≤ p.2 ∧ p.2 ≤ n := by
  induction lines with
  | nil => intro st h1 h2; simpa using h2
  | cons line rest ih =>
    intro st h1 h2
    have h := parseStep_preserves_range n st line h1 h2
    simpa using ih (parseStep n st line) h.1 h.2

theorem parse_values_in_range (txt : String) (n : Nat) (hn : 1 ≤ n) :
    ∀ p ∈ parse_activity_day_defaults txt n, 1 ≤ p.2 ∧ p.2 ≤ n := by
  unfold parse_activity_day_defaults
  split
  · simp
  · exact parse_foldl_range n (splitOnNl txt.data) (1, []) ⟨le_refl 1, hn⟩ (by simp)

-- ── map iteration order: keys of the parse result form a sublist of the
--    processed line texts ──

theorem parseStep_keys_sublist (n : Nat) (st : Nat × List (String × Nat))
    (line : List Char) :
    List.Sublist ((parseStep n st line).2.map Prod.fst)
      (st.2.map Prod.fst ++ [String.mk (pyLower (pyStrip line))]) := by
  obtain ⟨cd, m⟩ := st
  rcases hm : findDayMarker (pyStrip line) with _ | d
  · by_cases he : pyStrip line = []
    · rw [parseStep_skips_empty n cd m line hm he]
      exact List.sublist_append_left _ _
    · rw [parseStep_stores n cd m line hm he]
      rcases dictInsert_keys m (String.mk (pyLower (pyStrip line))) cd with h | h
      · rw [h]; exact List.sublist_append_left _ _
      · rw [h]
  · rw [show (parseStep n (cd, m) line).2 = m from
      parseStep_marker_excluded n cd m line d hm]
    exact List.sublist_append_left _ _

theorem parse_foldl_keys_sublist (n : Nat) (lines : List (List Char)) :
    ∀ st : Nat × List (String × Nat),
      List.Sublist ((lines.foldl (parseStep n) st).2.map Prod.fst)
        (st.2.map Prod.fst ++ lines.map (fun l => String.mk (pyLower (pyStrip l)))) := by
  induction lines with
  | nil => intro st; simp
  | cons line rest ih =>
    intro st
    have h1 := ih (parseStep n st line)
    have h2 := (parseStep_keys_sublist n st line).append_right
      (rest.map (fun l => String.mk (pyLower (pyStrip l))))
    have h3 := h1.trans h2
    simpa [List.append_assoc] using h3

theorem parse_keys_sublist (txt : String) (n : Nat) :
    List.Sublist ((parse_activity_day_defaults txt n).map Prod.fst)
      ((splitOnNl txt.data).map (fun l => String.mk (pyLower (pyStrip l)))) := by
  unfold parse_activity_day_defaults
  split
  · simp
  · simpa using parse_foldl_keys_sublist n (splitOnNl txt.data) (1, [])

-- ── guess_day_for_activity: characterization of the word-overlap pass ──

theorem maxOv_cons (nw : List (List Char)) (p : String × Nat) (rest : List (String × Nat)) :
    maxOv nw (p :: rest) = max (ovEntry nw p) (maxOv nw rest) := rfl

theorem maxOv_attained (nw : List (List Char)) :
    ∀ m : List (String × Nat), 0 < maxOv nw m →
      ∃ q, m.find? (fun p => ovEntry nw p == maxOv nw m) = some q := by
  intro m
  induction m with
  | nil => intro h; simp [maxOv] at h
  | cons p rest ih =>
    intro h
    rw [maxOv_cons] at h ⊢
    by_cases ho : ovEntry nw p = max (ovEntry nw p) (maxOv nw rest)
    · refine ⟨p, ?_⟩
      rw [List.find?_cons_of_pos]
      simpa using ho
    · have hlt : ovEntry nw p < maxOv nw rest := by
        rcases Nat.le_total (ovEntry nw p) (maxOv nw rest) with hle | hle
        · rcases Nat.lt_or_ge (ovEntry nw p) (maxOv nw rest) with h' | h'
          · exact h'
          · exact absurd (by omega : ovEntry nw p = max (ovEntry nw p) (maxOv nw rest)) ho
        · exact absurd (by omega : ovEntry nw p = max (ovEntry nw p) (maxOv nw rest)) ho
      have hmax : max (ovEntry nw p) (maxOv nw rest) = maxOv nw rest := by omega
      rw [hmax] at h ⊢
      rcases ih h with ⟨q, hq⟩
      refine ⟨q, ?_⟩
      rw [List.find?_cons_of_neg, hq]
      simpa using Nat.ne_of_lt hlt
  
theorem overlap_foldl_char (nw : List (List Char)) :
    ∀ (m : List (String × Nat)) (bo bd : Nat),
      m.foldl (overlapStep nw) (bo, bd) =
        if 2 ≤ maxOv nw m ∧ bo < maxOv nw m then
          (maxOv nw m,
            ((m.find? fun p => ovEntry nw p == maxOv nw m).map Prod.snd).getD bd)
        else (bo, bd) := by
  intro m
  induction m with
  | nil => intro bo bd; simp [maxOv]
  | cons p rest ih =>
    intro bo bd
    rw [List.foldl_cons]
    simp only [maxOv_cons]
    by_cases hcond : bo < ovEntry nw p ∧ 2 ≤ ovEntry nw p
    · have hstep : overlapStep nw (bo, bd) p = (ovEntry nw p, p.2) := by
        unfold overlapStep
        simp [hcond]
      rw [hstep, ih]
      by_cases h2 : ovEntry nw p < maxOv nw rest
      · have hc2 : 2 ≤ maxOv nw rest ∧ ovEntry nw p < maxOv nw rest := ⟨by omega, h2⟩
        rw [if_pos hc2]
        have hmax : max (ovEntry nw p) (maxOv nw rest) = maxOv nw rest := by omega
        simp only [hmax]
        have hcr : 2 ≤ maxOv nw rest ∧ bo < maxOv nw rest := ⟨by omega, by omega⟩
        rw [if_pos hcr]
        have hpredp : (ovEntry nw p == maxOv nw rest) = false := by
          simpa using Nat.ne_of_lt h2
        rw [List.find?_cons]
        simp only [hpredp]
        rcases maxOv_attained nw rest (by omega) with ⟨q, hq⟩
        rw [hq]
        simp
      · have hc2 : ¬(2 ≤ maxOv nw rest ∧ ovEntry nw p < maxOv nw rest) := by
          intro hx; exact h2 hx.2
        rw [if_neg hc2]
        have hmax : max (ovEntry nw p) (maxOv nw rest) = ovEntry nw p := by omega
        simp only [hmax]
        have hcr : 2 ≤ ovEntry nw p ∧ bo < ovEntry nw p := ⟨hcond.2, hcond.1⟩
        rw [if_pos hcr]
        have hpredp : (ovEntry nw p == ovEntry nw p) = true := by simp
        rw [List.find?_cons]
        simp only [hpredp]
        simp
    · have hstep : overlapStep nw (bo, bd) p = (bo, bd) := by
        unfold overlapStep
        simp [hcond]
      rw [hstep, ih]
      by_cases hM : 2 ≤ maxOv nw rest ∧ bo < maxOv nw rest
      · rw [if_pos hM]
        have ho : ovEntry nw p < maxOv nw rest := by
          rcases Nat.lt_or_ge bo (ovEntry nw p) with h' | h'
          · have : ¬ 2 ≤ ovEntry nw p := fun hx => hcond ⟨h', hx⟩
            omega
          · omega
        have hmax : max (ovEntry nw p) (maxOv nw rest) = maxOv nw rest := by omega
        simp only [hmax]
        rw [if_pos hM]
        have hpredp : (ovEntry nw p == maxOv nw rest) = false := by
          simpa using Nat.ne_of_lt ho
        rw [List.find?_cons]
        simp only [hpredp]
      · rw [if_neg hM]
        have hc : ¬(2 ≤ max (ovEntry nw p) (maxOv nw rest)
            ∧ bo < max (ovEntry nw p) (maxOv nw rest)) := by
          intro hx
          rcases Nat.le_total (ovEntry nw p) (maxOv nw rest) with hle | hle
          · exact hM ⟨by omega, by omega⟩
          · exact hcond ⟨by omega, by omega⟩
        rw [if_neg hc]

-- ── guess_day_for_activity lemmas ──

theorem guess_containment (name : String) (m : List (String × Nat)) (dflt : Nat)
    (p : String × Nat)
    (h : m.find? (containsMatch (pyLower name.data)) = some p) :
    guess_day_for_activity name m dflt = p.2 := by
  unfold guess_day_for_activity
  simp only [h]

theorem guess_overlap (name : String) (m : List (String × Nat)) (dflt : Nat)
    (h : m.find? (containsMatch (pyLower name.data)) = none) :
    guess_day_for_activity name m dflt =
      (m.foldl (overlapStep (pyWords (pyLower name.data))) (0, dflt)).2 := by
  unfold guess_day_for_activity
  simp only [h]

theorem guess_default_or_mem (name : String) (m : List (String × Nat)) (dflt : Nat) :
    guess_day_for_activity name m dflt = dflt
      ∨ ∃ p ∈ m, guess_day_for_activity name m dflt = p.2 := by
  cases h : m.find? (containsMatch (pyLower name.data)) with
  | some p =>
    right
    exact ⟨p, List.mem_of_find?_eq_some h, guess_containment name m dflt p h⟩
  | none =>
    rw [guess_overlap name m dflt h, overlap_foldl_char]
    split
    · next hc =>
      rcases maxOv_attained (pyWords (pyLower name.data)) m (by omega) with ⟨q, hq⟩
      right
      refine ⟨q, List.mem_of_find?_eq_some hq, ?_⟩
      rw [hq]
      simp
    · left; rfl

-- ── warning-kind observations: each message template starts with a distinct
--    character, so warnings can be classified by their first character ──

theorem head?_heavyMsg (s : List ScheduledActivity) :
    (heavyMsg s).data.head? = some hotFace := by
  unfold heavyMsg
  simp

theorem head?_btbMsg (s : List ScheduledActivity) :
    (btbMsg s).data.head? = some '⚠' := by
  unfold btbMsg
  simp

theorem head?_sleepMsg (e n : String) :
    (sleepMsg e n).data.head? = some sleepFace := by
  unfold sleepMsg
  simp

theorem isKind_of_head (c0 c : Char) (w : String) (h : w.data.head? = some c0) :
    isKind c w = (c0 == c) := by
  unfold isKind
  rw [h]
  simp

-- ── per-day warning list characterizations ──

theorem day_warnings_filter_hot (acts : List ScheduledActivity) :
    (day_warnings acts).filter (isKind hotFace)
      = if 3 ≤ (strenuousOf acts).length then [heavyMsg (strenuousOf acts)] else [] := by
  have e1 : isKind hotFace (heavyMsg (strenuousOf acts)) = true := by
    rw [isKind_of_head hotFace hotFace _ (head?_heavyMsg _)]; simp
  have e2 : isKind hotFace (btbMsg (strenuousOf acts)) = false := by
    rw [isKind_of_head '⚠' hotFace _ (head?_btbMsg _)]; decide
  have e3 : ∀ a b : String, isKind hotFace (sleepMsg a b) = false := by
    intro a b
    rw [isKind_of_head sleepFace hotFace _ (head?_sleepMsg _ _)]; decide
  unfold day_warnings
  rw [List.filter_append]
  by_cases h3 : 3 ≤ (strenuousOf acts).length
  · rw [if_pos h3, if_pos h3]
    rcases hn : nightOf acts with _ | ⟨n, ns⟩ <;>
      rcases he : earlyOf acts with _ | ⟨e, es⟩ <;>
      simp [e1, e2, e3]
  · rw [if_neg h3, if_neg h3]
    by_cases h2 : (strenuousOf acts).length = 2
    · rw [if_pos h2]
      rcases hn : nightOf acts with _ | ⟨n, ns⟩ <;>
        rcases he : earlyOf acts with _ | ⟨e, es⟩ <;>
        simp [e1, e2, e3]
    · rw [if_neg h2]
      rcases hn : nightOf acts with _ | ⟨n, ns⟩ <;>
        rcases he : earlyOf acts with _ | ⟨e, es⟩ <;>
        simp [e1, e2, e3]

theorem day_warnings_filter_warnsign (acts : List ScheduledActivity) :
    (day_warnings acts).filter (isKind '⚠')
      = if (strenuousOf acts).length = 2 then [btbMsg (strenuousOf acts)] else [] := by
  have e1 : isKind '⚠' (heavyMsg (strenuousOf acts)) = false := by
    rw [isKind_of_head hotFace '⚠' _ (head?_heavyMsg _)]; decide
  have e2 : isKind '⚠' (btbMsg (strenuousOf acts)) = true := by
    rw [isKind_of_head '⚠' '⚠' _ (head?_btbMsg _)]; simp
  have e3 : ∀ a b : String, isKind '⚠' (sleepMsg a b) = false := by
    intro a b
    rw [isKind_of_head sleepFace '⚠' _ (head?_sleepMsg _ _)]; decide
  unfold day_warnings
  rw [List.filter_append]
  by_cases h3 : 3 ≤ (strenuousOf acts).length
  · have h2 : (strenuousOf acts).length ≠ 2 := by omega
    rw [if_pos h3, if_neg h2]
    rcases hn : nightOf acts with _ | ⟨n, ns⟩ <;>
      rcases he : earlyOf acts with _ | ⟨e, es⟩ <;>
      simp [e1, e2, e3]
  · rw [if_neg h3]
    by_cases h2 : (strenuousOf acts).length = 2
    · rw [if_pos h2]
      rcases hn : nightOf acts with _ | ⟨n, ns⟩ <;>
        rcases he : earlyOf acts with _ | ⟨e, es⟩ <;>
        simp [e1, e2, e3]
    · rw [if_neg h2]
      rcases hn : nightOf acts with _ | ⟨n, ns⟩ <;>
        rcases he : earlyOf acts with _ | ⟨e, es⟩ <;>
        simp [e1, e2, e3]

theorem day_warnings_filter_sleep (acts : List ScheduledActivity) :
    (day_warnings acts).filter (isKind sleepFace)
      = match nightOf acts, earlyOf acts with
        | n :: _, e :: _ => [sleepMsg e.name n.name]
        | _, _ => [] := by
  have e1 : isKind sleepFace (heavyMsg (strenuousOf acts)) = false := by
    rw [isKind_of_head hotFace sleepFace _ (head?_heavyMsg _)]; decide
  have e2 : isKind sleepFace (btbMsg (strenuousOf acts)) = false := by
    rw [isKind_of_head '⚠' sleepFace _ (head?_btbMsg _)]; decide
  have e3 : ∀ a b : String, isKind sleepFace (sleepMsg a b) = true := by
    intro a b
    rw [isKind_of_head sleepFace sleepFace _ (head?_sleepMsg _ _)]; simp
  unfold day_warnings
  rw [List.filter_append]
  by_cases h3 : 3 ≤ (strenuousOf acts).length
  · rw [if_pos h3]
    rcases hn : nightOf acts with _ | ⟨n, ns⟩ <;>
      rcases he : earlyOf acts with _ | ⟨e, es⟩ <;>
      simp [e1, e2, e3]
  · rw [if_neg h3]
    by_cases h2 : (strenuousOf acts).length = 2
    · rw [if_pos h2]
      rcases hn : nightOf acts with _ | ⟨n, ns⟩ <;>
        rcases he : earlyOf acts with _ | ⟨e, es⟩ <;>
        simp [e1, e2, e3]
    · rw [if_neg h2]
      rcases hn : nightOf acts with _ | ⟨n, ns⟩ <;>
        rcases he : earlyOf acts with _ | ⟨e, es⟩ <;>
        simp [e1, e2, e3]

-- ── compute_conflict_warnings: result map characterization ──


theorem compute_foldl_eq (das : List (Nat × List ScheduledActivity)) :
    ∀ acc : List (Nat × List String),
      (das.map Prod.fst).Nodup →
      (∀ k ∈ acc.map Prod.fst, k ∉ das.map Prod.fst) →
      das.foldl
        (fun acc p =>
          if day_warnings p.2 ≠ [] then dictInsert acc p.1 (day_warnings p.2) else acc)
        acc
      = acc ++ das.filterMap warnEntry := by
  induction das with
  | nil => intro acc _ _; simp
  | cons p rest ih =>
    intro acc hnd hdisj
    rw [List.map_cons, List.nodup_cons] at hnd
    obtain ⟨hp1, hnd2⟩ := hnd
    rw [List.foldl_cons]
    by_cases hw : day_warnings p.2 = []
    · have hstep :
          (if day_warnings p.2 ≠ [] then dictInsert acc p.1 (day_warnings p.2) else acc)
            = acc := by simp [hw]
      have hdisj2 : ∀ k ∈ acc.map Prod.fst, k ∉ rest.map Prod.fst := by
        intro k hk
        have h2 := hdisj k hk
        rw [List.map_cons] at h2
        intro hmem
        exact h2 (List.mem_cons_of_mem _ hmem)
      rw [hstep, ih acc hnd2 hdisj2, List.filterMap_cons]
      have hnone : warnEntry p = none := by simp [warnEntry, hw]
      rw [hnone]
    · have hfresh : (acc.any fun q => q.1 = p.1) = false := by
        rw [List.any_eq_false]
        intro q hq
        simp only [decide_eq_true_eq]
        intro hc
        have h2 := hdisj q.1 (List.mem_map_of_mem Prod.fst hq)
        rw [List.map_cons] at h2
        exact h2 (by rw [hc]; exact List.mem_cons_self _ _)
      have hstep :
          (if day_warnings p.2 ≠ [] then dictInsert acc p.1 (day_warnings p.2) else acc)
            = acc ++ [(p.1, day_warnings p.2)] := by
        rw [if_pos hw]
        exact dictInsert_fresh acc p.1 (day_warnings p.2) hfresh
      have hdisj2 :
          ∀ k ∈ (acc ++ [(p.1, day_warnings p.2)]).map Prod.fst, k ∉ rest.map Prod.fst := by
        intro k hk
        rw [List.map_append] at hk
        rcases List.mem_append.mp hk with hk | hk
        · have h2 := hdisj k hk
          rw [List.map_cons] at h2
          intro hmem
          exact h2 (List.mem_cons_of_mem _ hmem)
        · simp only [List.map_cons, List.map_nil, List.mem_singleton] at hk
          rw [hk]
          exact hp1
      rw [hstep, ih (acc ++ [(p.1, day_warnings p.2)]) hnd2 hdisj2, List.filterMap_cons]
      have hsome : warnEntry p = some (p.1, day_warnings p.2) := by simp [warnEntry, hw]
      rw [hsome, List.append_assoc]
      rfl

theorem compute_eq_filterMap (das : List (Nat × List ScheduledActivity))
    (hnd : (das.map Prod.fst).Nodup) :
    compute_conflict_warnings das = das.filterMap warnEntry := by
  unfold compute_conflict_warnings
  have h := compute_foldl_eq das [] hnd (by simp)
  simpa using h

theorem find?_filterMap_warn_none (d : Nat) :
    ∀ das : List (Nat × List ScheduledActivity), (∀ p ∈ das, p.1 ≠ d) →
      (das.filterMap warnEntry).find? (fun q => q.1 == d) = none := by
  intro das
  induction das with
  | nil => intro _; simp
  | cons p rest ih =>
    intro hne
    rw [List.filterMap_cons]
    have hrest := ih (fun q hq => hne q (List.mem_cons_of_mem _ hq))
    cases hw : warnEntry p with
    | none => exact hrest
    | some e =>
      have hkey : e.1 = p.1 := by
        unfold warnEntry at hw
        split at hw
        · exact absurd hw (by simp)
        · cases hw; rfl
      rw [List.find?_cons]
      have : (e.1 == d) = false := by
        rw [hkey]
        simpa using hne p (List.mem_cons_self _ _)
      simp only [this]
      exact hrest

theorem find?_filterMap_warn (d : Nat) (acts : List ScheduledActivity) :
    ∀ das : List (Nat × List ScheduledActivity),
      (das.map Prod.fst).Nodup → (d, acts) ∈ das →
      (das.filterMap warnEntry).find? (fun q => q.1 == d)
        = if day_warnings acts = [] then none else some (d, day_warnings acts) := by
  intro das
  induction das with
  | nil => intro _ hmem; simp at hmem
  | cons p rest ih =>
    intro hnd hmem
    rw [List.map_cons, List.nodup_cons] at hnd
    obtain ⟨hp1, hnd2⟩ := hnd
    rcases List.mem_cons.mp hmem with heq | hmem2
    · have hpd : p = (d, acts) := heq.symm
      rw [List.filterMap_cons]
      by_cases hw : day_warnings acts = []
      · have hnone : warnEntry p = none := by
          rw [hpd]; simp [warnEntry, hw]
        rw [hnone, if_pos hw]
        apply find?_filterMap_warn_none
        intro q hq
        intro hc
        apply hp1
        rw [hpd]
        show d ∈ List.map Prod.fst rest
        rw [← hc]
        exact List.mem_map_of_mem Prod.fst hq
      · have hsome : warnEntry p = some (d, day_warnings acts) := by
          rw [hpd]; simp [warnEntry, hw]
        rw [hsome, if_neg hw, List.find?_cons]
        have : ((d, day_warnings acts).1 == d) = true := by simp
        simp only [this]
    · have hpd : p.1 ≠ d := by
        intro hc
        apply hp1
        rw [hc]
        exact List.mem_map_of_mem Prod.fst hmem2
      rw [List.filterMap_cons]
      have hrest := ih hnd2 hmem2
      cases hw : warnEntry p with
      | none => exact hrest
      | some e =>
        have hkey : e.1 = p.1 := by
          unfold warnEntry at hw
          split at hw
          · exact absurd hw (by simp)
          · cases hw; rfl
        rw [List.find?_cons]
        have : (e.1 == d) = false := by
          rw [hkey]
          simpa using hpd
        simp only [this]
        exact hrest

theorem warningsFor_eq (das : List (Nat × List ScheduledActivity)) (d : Nat)
    (acts : List ScheduledActivity) (hnd : (das.map Prod.fst).Nodup)
    (hmem : (d, acts) ∈ das) :
    warningsFor das d = day_warnings acts := by
  unfold warningsFor
  rw [compute_eq_filterMap das hnd, find?_filterMap_warn d acts das hnd hmem]
  by_cases hw : day_warnings acts = []
  · rw [if_pos hw, hw]
  · rw [if_neg hw]

theorem compute_absent (das : List (Nat × List ScheduledActivity)) (d : Nat)
    (acts : List ScheduledActivity) (hnd : (das.map Prod.fst).Nodup)
    (hmem : (d, acts) ∈ das) (hw : day_warnings acts = []) :
    (compute_conflict_warnings das).find? (fun q => q.1 == d) = none := by
  rw [compute_eq_filterMap das hnd, find?_filterMap_warn d acts das hnd hmem, if_pos hw]

-- ── ItineraryBoard lemmas ──

-- The column update map of addActivity preserves every key.
theorem addActivity_map_keys (b : List (Nat × List ScheduledActivity)) (target i : Nat)
    (name a_type : String) :
    (b.map fun p =>
        if p.1 = target then (p.1, p.2 ++ [⟨mkActId i target, name, a_type⟩]) else p).map
        Prod.fst
      = b.map Prod.fst := by
  rw [List.map_map]
  apply List.map_congr_left
  intro q _
  by_cases hk : q.1 = target <;> simp [hk]

theorem pyGet_map_update (b : List (Nat × List ScheduledActivity)) (target i : Nat)
    (name a_type : String) (hk : (b.any fun p => p.1 = target) = true) :
    pyGet (b.map fun p =>
        if p.1 = target then (p.1, p.2 ++ [⟨mkActId i target, name, a_type⟩]) else p) target
      = pyGet b target ++ [⟨mkActId i target, name, a_type⟩] := by
  unfold pyGet
  rw [List.find?_map]
  have hpred : ((fun q : Nat × List ScheduledActivity => q.1 == target) ∘
      (fun p : Nat × List ScheduledActivity =>
        if p.1 = target then (p.1, p.2 ++ [⟨mkActId i target, name, a_type⟩]) else p))
      = (fun q : Nat × List ScheduledActivity => q.1 == target) := by
    funext q
    by_cases h : q.1 = target <;> simp [h]
  rw [hpred]
  rcases hf : b.find? (fun q => q.1 == target) with _ | q
  · rw [List.find?_eq_none] at hf
    rw [List.any_eq_true] at hk
    rcases hk with ⟨q, hq, hqt⟩
    simp only [decide_eq_true_eq] at hqt
    exact absurd (by simpa using hqt : (q.1 == target) = true) (by simpa using hf q hq)
  · have hq1 : q.1 = target := by
      have := List.find?_some hf
      simpa using this
    rw [hf]
    simp [hq1]

theorem pyGet_eq_nil_of_no_key (b : List (Nat × List ScheduledActivity)) (target : Nat)
    (hk : (b.any fun p => p.1 = target) = false) : pyGet b target = [] := by
  unfold pyGet
  rcases hf : b.find? (fun q => q.1 == target) with _ | q
  · rw [hf]
  · have hq1 : q.1 = target := by
      have := List.find?_some hf
      simpa using this
    rw [List.any_eq_false] at hk
    exact absurd (by simpa using hq1) (by simpa using hk q (List.mem_of_find?_eq_some hf))

-- addActivity is a no-op when the exact name is already on the target column.
theorem ensureDay_of_key (b : List (Nat × List ScheduledActivity)) (target : Nat)
    (hk : (b.any fun p => p.1 = target) = true) : ensureDay b target = b := by
  unfold ensureDay
  rw [if_pos hk]

theorem ensureDay_of_no_key (b : List (Nat × List ScheduledActivity)) (target : Nat)
    (hk : (b.any fun p => p.1 = target) = false) :
    ensureDay b target = b ++ [(target, [])] := by
  unfold ensureDay
  rw [if_neg (by simp [hk])]

theorem pyGet_append_nil_col (b : List (Nat × List ScheduledActivity)) (target : Nat)
    (hk : (b.any fun p => p.1 = target) = false) :
    pyGet (b ++ [(target, [])]) target = [] := by
  unfold pyGet
  rw [List.find?_append]
  have hb : b.find? (fun p => p.1 == target) = none := by
    rw [List.find?_eq_none]
    intro x hx
    rw [List.any_eq_false] at hk
    simpa using hk x hx
  rw [hb]
  simp

-- addActivity is a no-op when the exact name is already on the target column.
theorem addActivity_noop (b : List (Nat × List ScheduledActivity)) (target i : Nat)
    (name a_type : String) (h : ((pyGet b target).any fun a => a.name = name) = true) :
    addActivity b target i name a_type = b := by
  cases hk : (b.any fun p => p.1 = target) with
  | true =>
    unfold addActivity
    rw [ensureDay_of_key b target hk, if_pos h]
  | false =>
    rw [pyGet_eq_nil_of_no_key b target hk] at h
    simp at h

-- addActivity appends the new entry, with its derived id, at the end of the
-- target column when the name is not yet present.
theorem addActivity_append (b : List (Nat × List ScheduledActivity)) (target i : Nat)
    (name a_type : String)
    (h : ((pyGet b target).any fun a => a.name = name) = false) :
    pyGet (addActivity b target i name a_type) target
      = pyGet b target ++ [⟨mkActId i target, name, a_type⟩] := by
  cases hk : (b.any fun p => p.1 = target) with
  | true =>
    unfold addActivity
    rw [ensureDay_of_key b target hk, if_neg (by simp [h])]
    exact pyGet_map_update b target i name a_type hk
  | false =>
    have hnil : pyGet b target = [] := pyGet_eq_nil_of_no_key b target hk
    have hnil2 : pyGet (b ++ [(target, [])]) target = [] := pyGet_append_nil_col b target hk
    have hk2 : ((b ++ [(target, [])]).any fun p => p.1 = target) = true := by simp
    unfold addActivity
    rw [ensureDay_of_no_key b target hk, if_neg (by simp [hnil2])]
    rw [pyGet_map_update (b ++ [(target, [])]) target i name a_type hk2, hnil2, hnil]

-- After any add of the name, the name is present on the target column.
theorem name_mem_after_add (b : List (Nat × List ScheduledActivity)) (target i : Nat)
    (name a_type : String) :
    ((pyGet (addActivity b target i name a_type) target).any fun a => a.name = name)
      = true := by
  cases hb : ((pyGet b target).any fun a => a.name = name) with
  | true =>
    rw [addActivity_noop b target i name a_type hb]
    exact hb
  | false =>
    rw [addActivity_append b target i name a_type hb]
    simp

-- The set of day keys grows only by the target day.
theorem addActivity_keys (b : List (Nat × List ScheduledActivity)) (target i : Nat)
    (name a_type : String) :
    (addActivity b target i name a_type).map Prod.fst = b.map Prod.fst
      ∨ (addActivity b target i name a_type).map Prod.fst = b.map Prod.fst ++ [target] := by
  cases hk : (b.any fun p => p.1 = target) with
  | true =>
    unfold addActivity
    rw [ensureDay_of_key b target hk]
    split
    · left; rfl
    · left; exact addActivity_map_keys b target i name a_type
  | false =>
    unfold addActivity
    rw [ensureDay_of_no_key b target hk]
    split
    · right; simp
    · right
      rw [addActivity_map_keys (b ++ [(target, [])]) target i name a_type]
      simp

-- ── decimal printing: correctness of natToDigits against decValue ──

theorem natToDigitsAux_eq : ∀ fuel n acc, n < fuel →
    natToDigitsAux fuel n acc = natDigs n ++ acc := by
  intro fuel
  induction fuel with
  | zero => intro n acc h; omega
  | succ f ih =>
    intro n acc h
    unfold natToDigitsAux
    by_cases h10 : n < 10
    · rw [if_pos h10]
      rw [show natDigs n = [digitChar n] from by rw [natDigs]; rw [dif_pos h10]]
      rfl
    · rw [if_neg h10, ih (n / 10) _ (by omega)]
      rw [show natDigs n = natDigs (n / 10) ++ [digitChar (n % 10)] from by
        rw [natDigs]; rw [dif_neg h10]]
      simp

theorem decValue_append_digit (l : List Char) (c : Char) :
    decValue (l ++ [c]) = 10 * decValue l + (c.toNat - '0'.toNat) := by
  unfold decValue
  rw [List.foldl_append]
  rfl

theorem digitChar_toNat (d : Nat) (h : d < 10) :
    (digitChar d).toNat - '0'.toNat = d := by
  interval_cases d <;> decide

theorem decValue_natDigs : ∀ n, decValue (natDigs n) = n := by
  intro n
  induction n using Nat.strong_induction_on with
  | _ n ih =>
    by_cases h : n < 10
    · rw [show natDigs n = [digitChar n] from by rw [natDigs]; rw [dif_pos h]]
      have hv : decValue [digitChar n] = (digitChar n).toNat - '0'.toNat := by
        unfold decValue
        simp
      rw [hv, digitChar_toNat n h]
    · rw [show natDigs n = natDigs (n / 10) ++ [digitChar (n % 10)] from by
        rw [natDigs]; rw [dif_neg h]]
      rw [decValue_append_digit, ih (n / 10) (by omega), digitChar_toNat _ (by omega)]
      omega

theorem decValue_natToDigits (n : Nat) : decValue (natToDigits n) = n := by
  unfold natToDigits
  rw [natToDigitsAux_eq (n + 1) n [] (by omega), List.append_nil]
  exact decValue_natDigs n

-- ── pyGet on cons cells ──

theorem pyGet_cons_self (d0 : Nat) (c0 : List ScheduledActivity)
    (b : List (Nat × List ScheduledActivity)) : pyGet ((d0, c0) :: b) d0 = c0 := by
  unfold pyGet
  simp

theorem pyGet_cons_ne (d0 : Nat) (c0 : List ScheduledActivity)
    (b : List (Nat × List ScheduledActivity)) (d : Nat) (h : d0 ≠ d) :
    pyGet ((d0, c0) :: b) d = pyGet b d := by
  unfold pyGet
  rw [List.find?_cons_of_neg _ (by simpa using h)]

-- Rendering the ordered day columns of a board whose key list is exactly the
-- rendered days reproduces the board.
theorem days_data_eq_self :
    ∀ b : List (Nat × List ScheduledActivity), (b.map Prod.fst).Nodup →
      days_data b (b.map Prod.fst) = b := by
  intro b
  induction b with
  | nil => intro _; rfl
  | cons p b2 ih =>
    intro hnd
    rw [List.map_cons, List.nodup_cons] at hnd
    obtain ⟨hp1, hnd2⟩ := hnd
    obtain ⟨p1, p2⟩ := p
    unfold days_data
    rw [List.map_cons, List.map_cons]
    have h1 : pyGet ((p1, p2) :: b2) p1 = p2 := pyGet_cons_self p1 p2 b2
    rw [h1]
    have h2 : (b2.map Prod.fst).map (fun d => (d, pyGet ((p1, p2) :: b2) d))
        = (b2.map Prod.fst).map (fun d => (d, pyGet b2 d)) := by
      apply List.map_congr_left
      intro d hd
      have hne : p1 ≠ d := by
        intro hc
        rw [hc] at hp1
        exact hp1 hd
      rw [pyGet_cons_ne p1 p2 b2 d hne]
    rw [h2]
    have h3 := ih hnd2
    unfold days_data at h3
    rw [h3]

-- ── seeding, range preservation, resolveDefault ──

theorem day_activities_init_keys_iff (nights d : Nat) :
    (∃ c, (d, c) ∈ day_activities_init nights) ↔ 1 ≤ d ∧ d ≤ nights + 1 := by
  unfold day_activities_init
  constructor
  · rintro ⟨c, hc⟩
    rcases List.mem_map.mp hc with ⟨i, hi, he⟩
    rw [List.mem_range] at hi
    have : i + 1 = d := congrArg Prod.fst he
    omega
  · rintro ⟨h1, h2⟩
    refine ⟨[], ?_⟩
    apply List.mem_map.mpr
    refine ⟨d - 1, ?_, ?_⟩
    · rw [List.mem_range]; omega
    · have : d - 1 + 1 = d := by omega
      rw [this]

theorem day_activities_init_cols_empty (nights : Nat) :
    ∀ p ∈ day_activities_init nights, p.2 = [] := by
  intro p hp
  unfold day_activities_init at hp
  rcases List.mem_map.mp hp with ⟨i, _, he⟩
  rw [← he]

theorem addActivity_preserves_range (b : List (Nat × List ScheduledActivity))
    (target i : Nat) (name a_type : String) (N : Nat) (h1 : 1 ≤ target) (h2 : target ≤ N)
    (hb : ∀ p ∈ b, 1 ≤ p.1 ∧ p.1 ≤ N) :
    ∀ p ∈ addActivity b target i name a_type, 1 ≤ p.1 ∧ p.1 ≤ N := by
  intro p hp
  have hmem : p.1 ∈ (addActivity b target i name a_type).map Prod.fst :=
    List.mem_map_of_mem Prod.fst hp
  rcases addActivity_keys b target i name a_type with h | h <;> rw [h] at hmem
  · rcases List.mem_map.mp hmem with ⟨q, hq, he⟩
    have := hb q hq
    omega
  · rcases List.mem_append.mp hmem with hm | hm
    · rcases List.mem_map.mp hm with ⟨q, hq, he⟩
      have := hb q hq
      omega
    · rw [List.mem_singleton] at hm
      omega

theorem applyAll_preserves_range (N : Nat) :
    ∀ (items : List SuggestionAdd) (b : List (Nat × List ScheduledActivity)),
      (∀ it ∈ items, 1 ≤ it.target ∧ it.target ≤ N) →
      (∀ p ∈ b, 1 ≤ p.1 ∧ p.1 ≤ N) →
      ∀ p ∈ applyAll b items, 1 ≤ p.1 ∧ p.1 ≤ N := by
  intro items
  induction items with
  | nil => intro b _ hb; simpa [applyAll] using hb
  | cons it rest ih =>
    intro b hitems hb
    have hstep := addActivity_preserves_range b it.target it.idx it.name it.a_type N
      (hitems it (List.mem_cons_self _ _)).1 (hitems it (List.mem_cons_self _ _)).2 hb
    have hrest : ∀ x ∈ rest, 1 ≤ x.target ∧ x.target ≤ N :=
      fun x hx => hitems x (List.mem_cons_of_mem _ hx)
    intro p hp
    unfold applyAll at hp
    rw [List.foldl_cons] at hp
    exact ih (addActivity b it.target it.idx it.name it.a_type) hrest hstep p hp

theorem resolveDefault_mem (raw : Nat) (opts : List Nat) (h : opts ≠ []) :
    resolveDefault raw opts ∈ opts := by
  unfold resolveDefault
  split
  · next hm => exact hm
  · next hm =>
    cases opts with
    | nil => exact absurd rfl h
    | cons d rest => exact List.mem_cons_self _ _

-- Python dict overwrite: lookup of an inserted key yields the new value.
theorem dictInsert_find? {α : Type} (m : List (String × α)) (k : String) (v : α) :
    (dictInsert m k v).find? (fun p => p.1 == k) = some (k, v) := by
  unfold dictInsert
  split
  · next hany =>
    rw [List.find?_map]
    have hpred : ((fun p : String × α => p.1 == k) ∘
        (fun p : String × α => if p.1 = k then (k, v) else p))
        = (fun p : String × α => p.1 == k) := by
      funext q
      by_cases hq : q.1 = k <;> simp [hq]
    rw [hpred]
    rw [List.any_eq_true] at hany
    rcases hany with ⟨q, hq, hqk⟩
    simp only [decide_eq_true_eq] at hqk
    rcases hf : m.find? (fun p => p.1 == k) with _ | r
    · rw [List.find?_eq_none] at hf
      exact absurd (by simpa using hqk) (by simpa using hf q hq)
    · have hr : r.1 = k := by
        have := List.find?_some hf
        simpa using this
      rw [hf]
      simp [hr]
  · next hany =>
    rw [List.find?_append]
    have hany2 : (m.any fun p => p.1 = k) = false := Bool.eq_false_iff.mpr hany
    have hm : m.find? (fun p => p.1 == k) = none := by
      rw [List.find?_eq_none]
      intro x hx
      rw [List.any_eq_false] at hany2
      simpa using hany2 x hx
    rw [hm]
    simp

-- ═══ Claim theorems ═══

/-- Claim C2, counterexample: the line "Day 5" under numDays = 2 carries an
out-of-range day marker; the claim says such a line is stored (trimmed,
lowercased) in the day map, but parse excludes every line containing a day
marker, so the resulting map is empty. -/
theorem C2_counterexample :
    parse_activity_day_defaults "Day 5" 2 = []
      ∧ ¬ (("day 5", 1) ∈ parse_activity_day_defaults "Day 5" 2) := by
  exact ⟨by decide, by decide⟩

/-- Claim C2 (amended): a line whose stripped text contains a day marker with
an out-of-range number leaves the current-day pointer unchanged and is
excluded from the day map, like every other marker line. -/
theorem C2_out_of_range_marker_line (n cd : Nat) (m : List (String × Nat))
    (line : List Char) (d : Nat) (hm : findDayMarker (pyStrip line) = some d)
    (hout : ¬(1 ≤ d ∧ d ≤ n)) :
    parseStep n (cd, m) line = (cd, m) :=
  parseStep_marker_out_of_range n cd m line d hm hout

/-- Witness for C2: "Day 5" under numDays = 2 leaves the state (1, empty map)
unchanged. -/
theorem C2_witness : parseStep 2 (1, []) ("Day 5").data = (1, []) :=
  C2_out_of_range_marker_line 2 1 [] ("Day 5").data 5 (by decide) (by decide)

/-- Claim C3, counterexample: "Day 7 rest day" under numDays = 2 is a
non-empty trimmed line not matching an in-range marker, so the claim says it
is stored; the code drops every line containing a day marker, leaving the map
empty. -/
theorem C3_counterexample :
    parse_activity_day_defaults "Day 7 rest day" 2 = []
      ∧ ¬ (("day 7 rest day", 1) ∈ parse_activity_day_defaults "Day 7 rest day" 2) := by
  exact ⟨by decide, by decide⟩

/-- Claim C3 (amended): a line matching an in-range day marker sets the
current day and is excluded from the map; every line containing any day
marker is excluded; every other non-empty trimmed line is stored lowercased
under the current day, a later duplicate key overwriting the stored value in
place; and the key order of the resulting map is a sublist of the processed
line order. -/
theorem C3_parse_line_handling :
    (∀ (n cd : Nat) (m : List (String × Nat)) (line : List Char) (d : Nat),
        findDayMarker (pyStrip line) = some d → 1 ≤ d → d ≤ n →
        parseStep n (cd, m) line = (d, m))
    ∧ (∀ (n cd : Nat) (m : List (String × Nat)) (line : List Char) (d : Nat),
        findDayMarker (pyStrip line) = some d →
        (parseStep n (cd, m) line).2 = m)
    ∧ (∀ (n cd : Nat) (m : List (String × Nat)) (line : List Char),
        findDayMarker (pyStrip line) = none → pyStrip line ≠ [] →
        parseStep n (cd, m) line
          = (cd, dictInsert m (String.mk (pyLower (pyStrip line))) cd))
    ∧ (∀ (m : List (String × Nat)) (k : String) (v : Nat),
        (dictInsert m k v).find? (fun p => p.1 == k) = some (k, v))
    ∧ (∀ (txt : String) (n : Nat),
        List.Sublist ((parse_activity_day_defaults txt n).map Prod.fst)
          ((splitOnNl txt.data).map (fun l => String.mk (pyLower (pyStrip l))))) :=
  ⟨parseStep_marker_in_range,
   parseStep_marker_excluded,
   parseStep_stores,
   fun m k v => dictInsert_find? m k v,
   parse_keys_sublist⟩

/-- Witness for C3: the header line "Day 2: Hike the falls" sets the current
day to 2 and is excluded from the map. -/
theorem C3_witness : parseStep 3 (1, []) ("Day 2: Hike the falls").data = (2, []) :=
  C3_parse_line_handling.1 3 1 [] ("Day 2: Hike the falls").data 2
    (by decide) (by decide) (by decide)

/-- Claim C4: guess first scans the day map in order for a containment match
and returns its day; only with no containment match does it return the day of
the first entry attaining the maximal word overlap, provided that maximum is
at least 2; with neither it returns the default day.  On the day map of the
example narrative, guess of "Hike to Sunrise Point" returns 1. -/
theorem C4_guess_resolution :
    (∀ (name : String) (m : List (String × Nat)) (dflt : Nat) (p : String × Nat),
        m.find? (containsMatch (pyLower name.data)) = some p →
        guess_day_for_activity name m dflt = p.2)
    ∧ (∀ (name : String) (m : List (String × Nat)) (dflt : Nat) (p : String × Nat),
        m.find? (containsMatch (pyLower name.data)) = none →
        2 ≤ maxOv (pyWords (pyLower name.data)) m →
        m.find? (fun q => ovEntry (pyWords (pyLower name.data)) q
            == maxOv (pyWords (pyLower name.data)) m) = some p →
        guess_day_for_activity name m dflt = p.2)
    ∧ (∀ (name : String) (m : List (String × Nat)) (dflt : Nat),
        m.find? (containsMatch (pyLower name.data)) = none →
        maxOv (pyWords (pyLower name.data)) m < 2 →
        guess_day_for_activity name m dflt = dflt)
    ∧ parse_activity_day_defaults "Day 1\nHike to Sunrise Point\nDay 2\nKayak the lake" 2
        = [("hike to sunrise point", 1), ("kayak the lake", 2)]
    ∧ guess_day_for_activity "Hike to Sunrise Point"
        [("hike to sunrise point", 1), ("kayak the lake", 2)] 1 = 1 := by
  refine ⟨guess_containment, ?_, ?_, by decide, by decide⟩
  · intro name m dflt p hc hmx hf
    rw [guess_overlap name m dflt hc, overlap_foldl_char]
    rw [if_pos ⟨hmx, by omega⟩, hf]
    rfl
  · intro name m dflt hc hmx
    rw [guess_overlap name m dflt hc, overlap_foldl_char]
    rw [if_neg (by omega)]

/-- Witness for C4: the containment pass resolves the example activity to
day 1. -/
theorem C4_witness :
    guess_day_for_activity "Hike to Sunrise Point"
      [("hike to sunrise point", 1), ("kayak the lake", 2)] 1 = 1 :=
  C4_guess_resolution.1 "Hike to Sunrise Point"
    [("hike to sunrise point", 1), ("kayak the lake", 2)] 1
    ("hike to sunrise point", 1) (by decide)

/-- Claim C10: with no containment match, the overlap pass returns the day of
the first map entry (in iteration order) attaining the maximal word overlap,
when that maximum is at least 2 — a later entry that merely ties the tracked
best never replaces it. -/
theorem C10_overlap_tie_break (name : String) (m : List (String × Nat)) (dflt : Nat)
    (p : String × Nat)
    (hc : m.find? (containsMatch (pyLower name.data)) = none)
    (hmx : 2 ≤ maxOv (pyWords (pyLower name.data)) m)
    (hf : m.find? (fun q => ovEntry (pyWords (pyLower name.data)) q
        == maxOv (pyWords (pyLower name.data)) m) = some p) :
    guess_day_for_activity name m dflt = p.2
      ∧ ovEntry (pyWords (pyLower name.data)) p = maxOv (pyWords (pyLower name.data)) m := by
  constructor
  · rw [guess_overlap name m dflt hc, overlap_foldl_char]
    rw [if_pos ⟨hmx, by omega⟩, hf]
    rfl
  · have := List.find?_some hf
    simpa using this

/-- Witness for C10: the entries "big lake trail" (day 2) and "big lake loop"
(day 3) both overlap "Big Lake hike" in exactly two words; the tie breaks to
the earlier entry, day 2. -/
theorem C10_witness :
    guess_day_for_activity "Big Lake hike"
      [("big lake trail", 2), ("big lake loop", 3)] 1 = 2 :=
  (C10_overlap_tie_break "Big Lake hike" [("big lake trail", 2), ("big lake loop", 3)] 1
    ("big lake trail", 2) (by decide) (by decide) (by decide)).1

/-- Claim C8: for every narrative text and every activity name, guess at
default day 1 over the day map parse builds for numDays at least 1 returns a
day in the interval from 1 to numDays. -/
theorem C8_guess_in_range (txt : String) (numDays : Nat) (name : String)
    (hn : 1 ≤ numDays) :
    1 ≤ guess_day_for_activity name (parse_activity_day_defaults txt numDays) 1
      ∧ guess_day_for_activity name (parse_activity_day_defaults txt numDays) 1
        ≤ numDays := by
  rcases guess_default_or_mem name (parse_activity_day_defaults txt numDays) 1 with
    h | ⟨p, hp, h⟩
  · rw [h]
    exact ⟨le_refl 1, hn⟩
  · rw [h]
    exact parse_values_in_range txt numDays hn p hp

/-- Witness for C8: on the two-day example narrative, guess of an unrelated
name stays within the interval from 1 to 2. -/
theorem C8_witness :
    1 ≤ guess_day_for_activity "Scenic Drive"
        (parse_activity_day_defaults "Day 1\nHike to Sunrise Point\nDay 2\nKayak the lake" 2) 1
      ∧ guess_day_for_activity "Scenic Drive"
          (parse_activity_day_defaults "Day 1\nHike to Sunrise Point\nDay 2\nKayak the lake" 2) 1
        ≤ 2 :=
  C8_guess_in_range "Day 1\nHike to Sunrise Point\nDay 2\nKayak the lake" 2
    "Scenic Drive" (by decide)

/-- Claim C5: for a day column of a board with distinct day keys, the result
map holds exactly one heavy-day warning, naming all strenuous activities of
the day, precisely when their count is at least 3, and exactly one
back-to-back warning naming both precisely when the count is 2 — never both
for the same day and neither when the count is 0 or 1. -/
theorem C5_strenuous_warnings (das : List (Nat × List ScheduledActivity)) (d : Nat)
    (acts : List ScheduledActivity) (hnd : (das.map Prod.fst).Nodup)
    (hmem : (d, acts) ∈ das) :
    (warningsFor das d).filter (isKind hotFace)
        = (if 3 ≤ (strenuousOf acts).length then [heavyMsg (strenuousOf acts)] else [])
      ∧ (warningsFor das d).filter (isKind '⚠')
          = (if (strenuousOf acts).length = 2 then [btbMsg (strenuousOf acts)] else []) := by
  rw [warningsFor_eq das d acts hnd hmem]
  exact ⟨day_warnings_filter_hot acts, day_warnings_filter_warnsign acts⟩

/-- Witness for C5: day 2 holding three strenuous activities yields exactly
the heavy-day warning naming all three and no back-to-back warning. -/
theorem C5_witness :
    (warningsFor [(2, [⟨"a0", "Summit Trail Hike", "Hiking"⟩,
        ⟨"a1", "Canyon Scramble", "Adventure"⟩,
        ⟨"a2", "Backcountry Trek", "Hiking"⟩])] 2).filter (isKind hotFace)
      = (if 3 ≤ (strenuousOf [⟨"a0", "Summit Trail Hike", "Hiking"⟩,
          ⟨"a1", "Canyon Scramble", "Adventure"⟩,
          ⟨"a2", "Backcountry Trek", "Hiking"⟩]).length then
          [heavyMsg (strenuousOf [⟨"a0", "Summit Trail Hike", "Hiking"⟩,
            ⟨"a1", "Canyon Scramble", "Adventure"⟩,
            ⟨"a2", "Backcountry Trek", "Hiking"⟩])] else []) :=
  (C5_strenuous_warnings
    [(2, [⟨"a0", "Summit Trail Hike", "Hiking"⟩,
      ⟨"a1", "Canyon Scramble", "Adventure"⟩,
      ⟨"a2", "Backcountry Trek", "Hiking"⟩])] 2
    [⟨"a0", "Summit Trail Hike", "Hiking"⟩,
      ⟨"a1", "Canyon Scramble", "Adventure"⟩,
      ⟨"a2", "Backcountry Trek", "Hiking"⟩]
    (by decide) (by decide)).1

/-- Claim C6: for a day column of a board with distinct day keys, the result
map holds exactly one sleep-conflict warning precisely when the column has at
least one night-tagged and at least one early-tagged activity, naming the
first-encountered activity of each tag in column order; and a day meeting
none of the warning conditions has no entry at all in the result map. -/
theorem C6_sleep_conflict_and_absence (das : List (Nat × List ScheduledActivity))
    (d : Nat) (acts : List ScheduledActivity) (hnd : (das.map Prod.fst).Nodup)
    (hmem : (d, acts) ∈ das) :
    ((warningsFor das d).filter (isKind sleepFace)
        = match nightOf acts, earlyOf acts with
          | n :: _, e :: _ => [sleepMsg e.name n.name]
          | _, _ => [])
      ∧ ((strenuousOf acts).length ≤ 1 → (nightOf acts = [] ∨ earlyOf acts = []) →
          (compute_conflict_warnings das).find? (fun q => q.1 == d) = none) := by
  constructor
  · rw [warningsFor_eq das d acts hnd hmem]
    exact day_warnings_filter_sleep acts
  · intro h1 h2
    have hw : day_warnings acts = [] := by
      unfold day_warnings
      have hs3 : ¬ 3 ≤ (strenuousOf acts).length := by omega
      have hs2 : (strenuousOf acts).length ≠ 2 := by omega
      rw [if_neg hs3, if_neg hs2]
      rcases h2 with h2 | h2
      · rw [h2]
        cases he : earlyOf acts with
        | nil => rfl
        | cons e es => rfl
      · rw [h2]
        cases hn : nightOf acts with
        | nil => rfl
        | cons nn ns => rfl
    exact compute_absent das d acts hnd hmem hw

/-- Witness for C6: day 3 holding an early ranger walk and a night stargazing
session yields exactly the sleep-conflict warning naming both. -/
theorem C6_witness :
    (warningsFor [(3, [⟨"b0", "Sunrise Ranger Walk", "Tour"⟩,
        ⟨"b1", "Campfire Stargazing", "Evening"⟩])] 3).filter (isKind sleepFace)
      = match nightOf [⟨"b0", "Sunrise Ranger Walk", "Tour"⟩,
            ⟨"b1", "Campfire Stargazing", "Evening"⟩],
          earlyOf [⟨"b0", "Sunrise Ranger Walk", "Tour"⟩,
            ⟨"b1", "Campfire Stargazing", "Evening"⟩] with
        | n :: _, e :: _ => [sleepMsg e.name n.name]
        | _, _ => [] :=
  (C6_sleep_conflict_and_absence
    [(3, [⟨"b0", "Sunrise Ranger Walk", "Tour"⟩, ⟨"b1", "Campfire Stargazing", "Evening"⟩])]
    3 [⟨"b0", "Sunrise Ranger Walk", "Tour"⟩, ⟨"b1", "Campfire Stargazing", "Evening"⟩]
    (by decide) (by decide)).1

/-- Claim C7: adding an activity name already present on the target day
column is a no-op; otherwise the entry is appended at the end of the column
with id act_i_target derived from the source index and the target day; adding
the same name twice to the same day leaves exactly one entry with that name;
and bulk apply silently skips the duplicate of a pair of suggestions sharing
name and target day. -/
theorem C7_add_dedup :
    (∀ (b : List (Nat × List ScheduledActivity)) (target i : Nat) (name a_type : String),
        ((pyGet b target).any fun a => a.name = name) = true →
        addActivity b target i name a_type = b)
    ∧ (∀ (b : List (Nat × List ScheduledActivity)) (target i : Nat) (name a_type : String),
        ((pyGet b target).any fun a => a.name = name) = false →
        pyGet (addActivity b target i name a_type) target
          = pyGet b target ++ [⟨mkActId i target, name, a_type⟩])
    ∧ (∀ (b : List (Nat × List ScheduledActivity)) (target i j : Nat)
          (name a_type a_type2 : String),
        ((pyGet b target).any fun a => a.name = name) = false →
        ((pyGet (addActivity (addActivity b target i name a_type) target j name a_type2)
            target).filter (fun a => a.name = name)).length = 1)
    ∧ (∀ (b : List (Nat × List ScheduledActivity)) (i j target : Nat) (name t1 t2 : String),
        applyAll b [⟨i, name, t1, target⟩, ⟨j, name, t2, target⟩]
          = addActivity b target i name t1) := by
  refine ⟨addActivity_noop, addActivity_append, ?_, ?_⟩
  · intro b target i j name a_type a_type2 h
    rw [addActivity_noop (addActivity b target i name a_type) target j name a_type2
      (name_mem_after_add b target i name a_type)]
    rw [addActivity_append b target i name a_type h]
    rw [List.filter_append]
    have h1 : (pyGet b target).filter (fun a => a.name = name) = [] := by
      rw [List.filter_eq_nil_iff]
      intro a ha
      rw [List.any_eq_false] at h
      simpa using h a ha
    rw [h1]
    simp
  · intro b i j target name t1 t2
    unfold applyAll
    rw [List.foldl_cons, List.foldl_cons, List.foldl_nil]
    exact addActivity_noop _ target j name t2 (name_mem_after_add b target i name t1)

/-- Witness for C7: adding "Summit Trail Hike" twice to day 1 of an empty
board leaves exactly one entry with that name. -/
theorem C7_witness :
    ((pyGet (addActivity (addActivity [] 1 0 "Summit Trail Hike" "Hiking")
        1 1 "Summit Trail Hike" "Hiking") 1).filter
      (fun a => a.name = "Summit Trail Hike")).length = 1 :=
  C7_add_dedup.2.2.1 [] 1 0 1 "Summit Trail Hike" "Hiking" "Hiking" (by decide)

/-- Claim C9: every operation placing a ScheduledActivity or DayMapEntry
keeps day numbers in the interval from 1 to total_days: the board is seeded
with exactly the day keys 1..nights+1, all holding empty columns; parse only
assigns days in the interval from 1 to numDays when numDays is at least 1;
individual add and bulk apply preserve the bound when every target day lies
in the interval from 1 to N; and the default-day resolution always lands in
the nonempty day-options list. -/
theorem C9_day_number_invariant :
    (∀ nights d : Nat,
        (∃ c, (d, c) ∈ day_activities_init nights) ↔ 1 ≤ d ∧ d ≤ nights + 1)
    ∧ (∀ nights : Nat, ∀ p ∈ day_activities_init nights, p.2 = [])
    ∧ (∀ (txt : String) (n : Nat), 1 ≤ n →
        ∀ p ∈ parse_activity_day_defaults txt n, 1 ≤ p.2 ∧ p.2 ≤ n)
    ∧ (∀ (b : List (Nat × List ScheduledActivity)) (target i : Nat)
          (name a_type : String) (N : Nat), 1 ≤ target → target ≤ N →
        (∀ p ∈ b, 1 ≤ p.1 ∧ p.1 ≤ N) →
        ∀ p ∈ addActivity b target i name a_type, 1 ≤ p.1 ∧ p.1 ≤ N)
    ∧ (∀ (N : Nat) (items : List SuggestionAdd) (b : List (Nat × List ScheduledActivity)),
        (∀ it ∈ items, 1 ≤ it.target ∧ it.target ≤ N) →
        (∀ p ∈ b, 1 ≤ p.1 ∧ p.1 ≤ N) →
        ∀ p ∈ applyAll b items, 1 ≤ p.1 ∧ p.1 ≤ N)
    ∧ (∀ (raw : Nat) (opts : List Nat), opts ≠ [] → resolveDefault raw opts ∈ opts) :=
  ⟨day_activities_init_keys_iff,
   day_activities_init_cols_empty,
   parse_values_in_range,
   addActivity_preserves_range,
   applyAll_preserves_range,
   resolveDefault_mem⟩

/-- Witness for C9: a suggested day absent from the options falls back to the
first option, which is one of the options. -/
theorem C9_witness : resolveDefault 5 [1, 2, 3] ∈ [1, 2, 3] :=
  C9_day_number_invariant.2.2.2.2.2 5 [1, 2, 3] (by decide)

/-- Claim C1 (round trip, with the owning-process replace modelled from the
spec): serializing a board whose key list is exactly the rendered day list to
the wire payload and rebuilding a board from that payload verbatim reproduces
the board, and in particular its ordered (day, name, type) triples. -/
theorem C1_serialize_rebuild_roundtrip (b : List (Nat × List ScheduledActivity))
    (days : List Nat) (hk : b.map Prod.fst = days) (hnd : days.Nodup) :
    rebuild_board_from_payload (saveState (days_data b days)) = b
      ∧ tripleList (rebuild_board_from_payload (saveState (days_data b days)))
          = tripleList b := by
  subst hk
  have h1 : days_data b (b.map Prod.fst) = b := days_data_eq_self b hnd
  rw [h1]
  have h2 : rebuild_board_from_payload (saveState b) = b := by
    unfold rebuild_board_from_payload saveState
    rw [List.map_map]
    have hcomp : ((fun p : String × List ScheduledActivity => (decValue p.1.data, p.2)) ∘
        (fun p : Nat × List ScheduledActivity => (String.mk (natToDigits p.1), p.2)))
        = id := by
      funext p
      show (decValue (String.mk (natToDigits p.1)).data, p.2) = p
      rw [show (String.mk (natToDigits p.1)).data = natToDigits p.1 from rfl]
      rw [decValue_natToDigits]
    rw [hcomp, List.map_id]
  exact ⟨h2, by rw [h2]⟩

/-- Witness for C1: a concrete two-day board survives the serialize and
rebuild round trip unchanged. -/
theorem C1_witness :
    rebuild_board_from_payload (saveState (days_data
        [(1, [⟨"act_0_1", "Hike to Sunrise Point", "Hiking"⟩]), (2, [])] [1, 2]))
      = [(1, [⟨"act_0_1", "Hike to Sunrise Point", "Hiking"⟩]), (2, [])] :=
  (C1_serialize_rebuild_roundtrip
    [(1, [⟨"act_0_1", "Hike to Sunrise Point", "Hiking"⟩]), (2, [])] [1, 2]
    (by decide) (by decide)).1
